import Mathlib

/-!
Shallow embedding of the Brent oil price change-point analysis pipeline:
data loading (`src/data_ingestion/data_loader.py`), preprocessing
(`src/data_processing/preprocessor.py`), the Bayesian change-point model
declaration (`src/models/bcp_model.py`), posterior summarisation and event
correlation (`src/models/train_model.py`, `src/dashboard/backend/app.py`),
and the dashboard service orchestration (`src/dashboard/backend/app.py`),
together with theorems checking the specification's claims against it.

Dates are modelled as integer day numbers; finite floating-point values are
idealised as rationals (reals where the claim is about `ln`/`exp`), and the
IEEE special values NaN / +inf / -inf that the pipeline can produce via
division and `np.log` are tracked explicitly by a dedicated value type.
-/

namespace BrentOil

/-- Calendar dates are modelled as integer day numbers, so that
`pd.Timedelta(days = 30)` arithmetic becomes integer arithmetic. -/
abbrev Date := Int

/-- One record of the events catalog (`events.csv`):
`(Approximate_Date, Event_Name, Description)`. -/
structure EventRec where
  date : Date
  name : String
  desc : String
deriving DecidableEq, Repr

/-! ### Posterior summarisation (`app.py` line 76, `train_model.py` line 154)

`app.py` extracts the change-point index as
`int(np.round(trace.posterior['tau'].mean().item()))`; `train_model.py`
(`get_analysis_results`) extracts it as `int(np.mean(tau_samples))`.
`np.round` rounds half to even; Python's `int()` on a float truncates
toward zero. -/

/-- Arithmetic mean of a list of rationals (`np.mean`); on the empty list
this yields `0/0 = 0` in `ℚ`, a case callers must treat separately because
`np.mean([])` is NaN. -/
def ratMean (xs : List ℚ) : ℚ :=
  xs.sum / (xs.length : ℚ)

/-- Rounding as `np.round`: round half to even (banker's rounding). -/
def npRound (q : ℚ) : ℤ :=
  if Int.fract q < 1 / 2 then ⌊q⌋
  else if 1 / 2 < Int.fract q then ⌊q⌋ + 1
  else if ⌊q⌋ % 2 = 0 then ⌊q⌋ else ⌊q⌋ + 1

/-- Python `int()` applied to a float: truncation toward zero. -/
def pyInt (q : ℚ) : ℤ :=
  if 0 ≤ q then ⌊q⌋ else -⌊-q⌋

/-- The `tau` point estimate of `run_full_analysis_and_serialize`
(`app.py` line 76): `int(np.round(mean of the tau draws))`. -/
def tau_point_estimate_app (tauDraws : List ℕ) : ℤ :=
  npRound (ratMean (tauDraws.map (fun n : ℕ => (n : ℚ))))

/-- The `tau` point estimate of `get_analysis_results`
(`train_model.py` line 154): `int(np.mean(tau_samples))`, which truncates
the mean toward zero instead of rounding it to the nearest integer. -/
def tau_point_estimate_train (tauDraws : List ℕ) : ℤ :=
  pyInt (ratMean (tauDraws.map (fun n : ℕ => (n : ℚ))))

/-! ### Log returns (`preprocessor.py` line 28)

`np.log(prices_df['Price'] / prices_df['Price'].shift(1))` computes, for
each position `i ≥ 1`, `ln(price[i] / price[i-1])`; position `0` is NaN and
dropped.  The price ratios are computable; the logarithm is applied over
`ℝ` in the statements about them (`Real.log` has no executable code). -/

/-- The price ratios whose logarithms form the non-NaN entries of the
`Log_Returns` column: entry `i` is `price[i+1] / price[i]`, so the log
return at entry `i` is `Real.log` of this ratio. -/
def log_return_ratios (prices : List ℚ) : List ℚ :=
  List.zipWith (fun prev cur => cur / prev) prices prices.tail

/-! ### The change-point model declaration (`bcp_model.py`) -/

/-- A declared prior distribution, as named in `build_bcp_model`. -/
inductive Dist where
  | discreteUniform (lower upper : ℤ)
  | normal (mu sigma : ℚ)
  | halfNormal (sigma : ℚ)
deriving DecidableEq, Repr

/-- Support of a declared discrete distribution (empty for the continuous
ones); `pm.DiscreteUniform(lower, upper)` puts mass on every integer of
`[lower, upper]`, both ends included. -/
def Dist.discreteSupport : Dist → Finset ℤ
  | .discreteUniform lo hi => Finset.Icc lo hi
  | _ => ∅

/-- Which regime mean an observation is assigned to by the switch. -/
inductive RegimeMu where
  | mu_1
  | mu_2
deriving DecidableEq, Repr

/-- Which regime scale an observation is assigned to by the switch. -/
inductive RegimeSigma where
  | sigma_1
  | sigma_2
deriving DecidableEq, Repr

/-- The declarative content of the PyMC model built by `build_bcp_model`:
the five named priors and, for each observation index `i` and each value
`t` of `tau`, which regime parameters the likelihood assigns to
observation `i` (the `pm.math.switch(idx < tau, _, _)` lines). -/
structure BcpModel where
  tau : Dist
  mu_1 : Dist
  sigma_1 : Dist
  mu_2 : Dist
  sigma_2 : Dist
  nObs : ℕ
  likelihoodMu : ℕ → ℤ → RegimeMu
  likelihoodSigma : ℕ → ℤ → RegimeSigma

/-- The model builder `build_bcp_model` (`bcp_model.py` lines 19-43), a pure declaration:
no sampling happens here.  `tau ~ DiscreteUniform(0, len(data) - 1)`,
`mu_i ~ Normal(0, 0.1)`, `sigma_i ~ HalfNormal(0.1)`, and each observation
`i` is modelled as `Normal(mu_1, sigma_1)` when `i < tau` and as
`Normal(mu_2, sigma_2)` otherwise.  Only the length of `data` enters the
declaration's structure, so the embedding is polymorphic in the entries. -/
def build_bcp_model {α : Type} (data : List α) : BcpModel where
  tau := .discreteUniform 0 ((data.length : ℤ) - 1)
  mu_1 := .normal 0 (1 / 10)
  sigma_1 := .halfNormal (1 / 10)
  mu_2 := .normal 0 (1 / 10)
  sigma_2 := .halfNormal (1 / 10)
  nObs := data.length
  likelihoodMu := fun i t => if (i : ℤ) < t then .mu_1 else .mu_2
  likelihoodSigma := fun i t => if (i : ℤ) < t then .sigma_1 else .sigma_2

/-! ### Preprocessing (`preprocessor.py` lines 24-45)

`preprocess_data` sets `Date` as the index, computes the `Log_Returns`
column, drops NaN rows, left-merges the events catalog on the date, fills
missing `Event_Name` / `Description` cells with `'No Event'`, and sorts by
date.  Division and `np.log` follow IEEE float semantics: a ratio with a
negative sign gives `log = NaN`, a zero ratio gives `-inf`, division by
zero gives `±inf` or NaN, `log(+inf) = +inf`, `log(-inf) = NaN`.  The
left merge with `left_index=True, right_on='Date'` keeps every price row,
duplicated once per matching event record (in catalog order), with the
date taken from the price index. -/

/-- Classification of an IEEE float produced by dividing two finite
values (`Price / Price.shift(1)`). -/
inductive FDiv where
  | nan
  | posinf
  | neginf
  | fin (q : ℚ)
deriving DecidableEq, Repr

/-- Float division of finite values: `0/0` is NaN, `x/0` is `±inf` for
`x ≠ 0`, otherwise the exact quotient. -/
def fdiv (num den : ℚ) : FDiv :=
  if den = 0 then
    if 0 < num then .posinf else if num < 0 then .neginf else .nan
  else .fin (num / den)

/-- A cell of the `Log_Returns` column.  A finite value is kept symbolic
as `logOf ratio`, the value `ln ratio` for a positive `ratio`. -/
inductive RVal where
  | nan
  | neginf
  | posinf
  | logOf (ratio : ℚ)
deriving DecidableEq, Repr

/-- Logarithm as `np.log` on a float: NaN for NaN and negative arguments (including
`-inf`), `-inf` at zero, `+inf` at `+inf`, else the real logarithm. -/
def npLog : FDiv → RVal
  | .nan => .nan
  | .posinf => .posinf
  | .neginf => .nan
  | .fin q => if q < 0 then .nan else if q = 0 then .neginf else .logOf q

/-- A row of the prices frame after `Date` became the index and the
`Log_Returns` column was added (`preprocessor.py` lines 24-28). -/
structure RawRow where
  date : Date
  price : ℚ
  logRet : RVal
deriving DecidableEq, Repr

/-- A string cell that may be missing (NaN) after the left merge. -/
inductive SVal where
  | nan
  | str (s : String)
deriving DecidableEq, Repr

/-- A row of the merged / preprocessed frame: date index plus the columns
`Price`, `Log_Returns`, `Event_Name`, `Description`. -/
structure PRow where
  date : Date
  price : ℚ
  logRet : RVal
  eventName : SVal
  eventDesc : SVal
deriving DecidableEq, Repr

/-- Lines 24-28: index by date and add the `Log_Returns` column; the first
row's log return is NaN (`shift(1)` has no predecessor there), and row
`i ≥ 1` gets `np.log(price[i] / price[i-1])`. -/
def addLogReturns (prices : List (Date × ℚ)) : List RawRow :=
  match prices with
  | [] => []
  | p0 :: _ =>
      ⟨p0.1, p0.2, .nan⟩ ::
        List.zipWith (fun prev cur => ⟨cur.1, cur.2, npLog (fdiv cur.2 prev.2)⟩)
          prices prices.tail

/-- Line 31: `dropna(inplace=True)` removes every row whose `Log_Returns`
cell is NaN (infinities are not NaN and are kept). -/
def dropnaRows (rows : List RawRow) : List RawRow :=
  rows.filter (fun r => decide (r.logRet ≠ RVal.nan))

/-- Line 37: the left merge on the date.  Every price row is kept in
order; a row whose date matches `k ≥ 1` event records is duplicated into
`k` rows (one per record, in catalog order), and a row with no matching
record gets NaN event cells. -/
def mergeEvents (rows : List RawRow) (events : List EventRec) : List PRow :=
  rows.flatMap (fun r =>
    match events.filter (fun e => decide (e.date = r.date)) with
    | [] => [⟨r.date, r.price, r.logRet, .nan, .nan⟩]
    | ms => ms.map (fun e => ⟨r.date, r.price, r.logRet, .str e.name, .str e.desc⟩))

/-- Line 41: `fillna('No Event')` on one cell. -/
def fillNoEvent : SVal → SVal
  | .nan => .str "No Event"
  | .str s => .str s

/-- Line 41 applied to the two event columns of every row. -/
def fillRows (rows : List PRow) : List PRow :=
  rows.map (fun r =>
    { r with eventName := fillNoEvent r.eventName, eventDesc := fillNoEvent r.eventDesc })

/-- Line 45: `sort_index(inplace=True)`, sorting rows by date.  (pandas'
default sort is not guaranteed stable; the embedding uses a stable sort,
and no proved statement depends on the relative order of equal dates.) -/
def sortByDate (rows : List PRow) : List PRow :=
  List.insertionSort (fun a b => a.date ≤ b.date) rows

instance : DecidableRel (fun a b : PRow => a.date ≤ b.date) :=
  fun a b => Int.decLe a.date b.date

/-- The function `preprocess_data` (`preprocessor.py` lines 24-45), as a function of
the values of its inputs. -/
def preprocess_data (prices : List (Date × ℚ)) (events : List EventRec) : List PRow :=
  sortByDate (fillRows (mergeEvents (dropnaRows (addLogReturns prices)) events))

/-! ### Loading (`data_loader.py` lines 22-48) -/

/-- The failure raised by `load_data`: `FileNotFoundError` with the
formatted message naming the attempted path. -/
inductive PipelineError where
  | fileNotFound (msg : String)
deriving DecidableEq, Repr

/-- The two input files, `none` meaning the file does not exist. -/
structure FileSystem where
  pricesFile : Option (List (Date × ℚ))
  eventsFile : Option (List EventRec)
deriving DecidableEq, Repr

instance : DecidableRel (fun a b : Date × ℚ => a.1 ≤ b.1) :=
  fun a b => Int.decLe a.1 b.1

/-- The loader `load_data` (`data_loader.py` lines 22-48): checks both paths exist
(raising `FileNotFoundError` naming the missing path, prices first),
reads both files, and sorts the prices by date. -/
def load_data (fs : FileSystem) (prices_path events_path : String) :
    Except PipelineError (List (Date × ℚ) × List EventRec) :=
  match fs.pricesFile with
  | none => .error (.fileNotFound ("Price data file not found at: " ++ prices_path))
  | some prices =>
    match fs.eventsFile with
    | none => .error (.fileNotFound ("Events data file not found at: " ++ events_path))
    | some events =>
        .ok (List.insertionSort (fun a b : Date × ℚ => a.1 ≤ b.1) prices, events)

/-- The SeriesPipeline composition the callers run: `load_data` followed
by `preprocess_data` (`train_model.py` lines 139-140, `app.py` lines
57-58). -/
def load_and_prepare (fs : FileSystem) (prices_path events_path : String) :
    Except PipelineError (List PRow) :=
  (load_data fs prices_path events_path).map (fun pe => preprocess_data pe.1 pe.2)

/-! ### Caller-visible mutation of the inputs (`preprocessor.py`)

`preprocess_data` operates on its argument DataFrames with
`inplace=True`: line 24 sets `Date` as the prices frame's index, line 28
adds the `Log_Returns` column, line 31 drops NaN rows, and line 36 renames
the events frame's `Approximate_Date` column to `Date`.  Line 37 rebinds
the local name `prices_df` to a fresh merge result, so later steps no
longer touch the caller's objects.  The state of both argument frames is
threaded explicitly. -/

/-- The caller-visible state of the prices DataFrame. -/
structure PricesFrame where
  indexIsDate : Bool
  rows : List (Date × ℚ)
  logReturnsCol : Option (List RVal)
deriving DecidableEq, Repr

/-- The caller-visible state of the events DataFrame: the name of its
date column and its records. -/
structure EventsFrame where
  dateColName : String
  recs : List EventRec
deriving DecidableEq, Repr

/-- The function `preprocess_data` with its in-place effects made explicit: the result
is the returned frame together with the final states of the two argument
frames. -/
def preprocess_data_effects (pf : PricesFrame) (ef : EventsFrame) :
    List PRow × PricesFrame × EventsFrame :=
  let kept := dropnaRows (addLogReturns pf.rows)
  let pf' : PricesFrame :=
    { indexIsDate := true
      rows := kept.map (fun r => (r.date, r.price))
      logReturnsCol := some (kept.map RawRow.logRet) }
  let ef' : EventsFrame := { dateColName := "Date", recs := ef.recs }
  (sortByDate (fillRows (mergeEvents kept ef.recs)), pf', ef')

/-! ### Event correlation (`app.py` lines 88-94, `train_model.py` lines 163-167)

Both sites use a hard-coded 30-day window with inclusive bounds.
`app.py` filters `events_raw_df` with a list comprehension over
`iterrows()` (catalog order, no sorting); `get_analysis_results`
additionally applies `sort_values(by='Date')`. -/

instance : DecidableRel (fun a b : EventRec => a.date ≤ b.date) :=
  fun a b => Int.decLe a.date b.date

/-- The correlator of `run_full_analysis_and_serialize` (`app.py` lines
91-94): the events within 30 days of the change point, in catalog order. -/
def relevant_events_app (cp : Date) (events : List EventRec) : List EventRec :=
  events.filter (fun e => decide (cp - 30 ≤ e.date ∧ e.date ≤ cp + 30))

/-- The correlator of `get_analysis_results` (`train_model.py` lines
163-167): the same filter followed by `sort_values(by='Date')`. -/
def relevant_events_train (cp : Date) (events : List EventRec) : List EventRec :=
  List.insertionSort (fun a b => a.date ≤ b.date)
    (events.filter (fun e => decide (cp - 30 ≤ e.date ∧ e.date ≤ cp + 30)))

/-! ### The dashboard service (`app.py` lines 36-154) -/

/-- One joint posterior draw of the five latent parameters. -/
structure Draw where
  tau : ℕ
  mu_1 : ℚ
  sigma_1 : ℚ
  mu_2 : ℚ
  sigma_2 : ℚ
deriving DecidableEq, Repr

/-- A posterior sample collection, all chains pooled. -/
abbrev Posterior := List Draw

/-- The `model_results` object assembled in `app.py` lines 113-119. -/
structure ModelResults where
  change_point_date : Date
  mu_1_post : ℚ
  mu_2_post : ℚ
  sigma_1_post : ℚ
  sigma_2_post : ℚ
deriving DecidableEq, Repr

/-- The successful payload assembled in `app.py` lines 110-121. -/
structure Results where
  prices_raw : List (Date × ℚ)
  preprocessed_data : List PRow
  model_results : ModelResults
  relevant_events : List EventRec
deriving DecidableEq, Repr

/-- The published dictionary: either the full results or `{"error": msg}`
and nothing else. -/
inductive AnalysisData where
  | ok (r : Results)
  | err (msg : String)
deriving DecidableEq, Repr

/-- The modeled path constants of `app.py` lines 36-37. -/
def PRICES_FILE_PATH : String := "data/raw/BrentOilPrices.csv"

/-- The modeled events path constant of `app.py` line 37. -/
def EVENTS_FILE_PATH : String := "data/raw/events.csv"

/-- The `.dropna()` applied before serializing `preprocessed_data`
(`app.py` line 101): drops any row still holding a NaN cell. -/
def serialize_dropna (rows : List PRow) : List PRow :=
  rows.filter (fun r =>
    decide (r.logRet ≠ RVal.nan ∧ r.eventName ≠ SVal.nan ∧ r.eventDesc ≠ SVal.nan))

/-- The pipeline `run_full_analysis_and_serialize` (`app.py` lines 43-128),
parameterized by the external sampler (`pm.sample`) and returning the
analysis payload together with the number of sampler invocations made.
Any exception is caught and turned into the
`"Failed to run analysis: ..."` error payload; an empty posterior makes
`np.mean` return NaN and `int(np.round(NaN))` raise, which the same
handler catches.  Note that by serialization time both input frames have
been mutated by `preprocess_data`, so the served `prices_raw` is the
index-reset mutated prices frame (first row dropped). -/
def run_full_analysis_counting (fs : FileSystem) (sampler : BcpModel → Posterior) :
    AnalysisData × ℕ :=
  match load_data fs PRICES_FILE_PATH EVENTS_FILE_PATH with
  | .error (.fileNotFound msg) => (.err ("Failed to run analysis: " ++ msg), 0)
  | .ok (prices_raw, events_raw) =>
    let pre := preprocess_data prices_raw events_raw
    let lrRows := pre.filter (fun r => decide (r.logRet ≠ RVal.nan))
    let dates := lrRows.map PRow.date
    let samples := sampler (build_bcp_model (lrRows.map PRow.logRet))
    if samples.isEmpty then
      (.err "Failed to run analysis: cannot convert float NaN to integer", 1)
    else
      let tau_idx := tau_point_estimate_app (samples.map Draw.tau)
      match dates[tau_idx.toNat]? with
      | none => (.err "Failed to run analysis: index out of bounds", 1)
      | some cp =>
          let mutated_prices := (dropnaRows (addLogReturns prices_raw)).map
            (fun r => (r.date, r.price))
          (.ok
            { prices_raw := mutated_prices
              preprocessed_data := serialize_dropna pre
              model_results :=
                { change_point_date := cp
                  mu_1_post := ratMean (samples.map Draw.mu_1)
                  mu_2_post := ratMean (samples.map Draw.mu_2)
                  sigma_1_post := ratMean (samples.map Draw.sigma_1)
                  sigma_2_post := ratMean (samples.map Draw.sigma_2) }
              relevant_events := relevant_events_app cp events_raw }, 1)

/-- The server state after the startup block: the cached payload and the
total number of sampler invocations so far. -/
structure ServerState where
  analysis_data : AnalysisData
  samplerCalls : ℕ
deriving DecidableEq, Repr

/-- The startup block of `app.py` lines 134-141: run the analysis once;
when it produced an error payload, re-raise and re-wrap the message as
`"Failed to initialize analysis on startup: ..."`. -/
def startup (fs : FileSystem) (sampler : BcpModel → Posterior) : ServerState :=
  match run_full_analysis_counting fs sampler with
  | (.err m, n) => ⟨.err ("Failed to initialize analysis on startup: " ++ m), n⟩
  | (.ok r, n) => ⟨.ok r, n⟩

/-- The `/api/all_data` handler (`app.py` lines 145-154): serve the cached
payload, with HTTP status 500 on an error payload and 200 otherwise; the
state is read, never written. -/
def get_all_data (s : ServerState) : (AnalysisData × ℕ) × ServerState :=
  match s.analysis_data with
  | .err m => ((.err m, 500), s)
  | .ok r => ((.ok r, 200), s)

/-- Serving `n` successive requests against the server. -/
def serve : ServerState → ℕ → List (AnalysisData × ℕ) × ServerState
  | s, 0 => ([], s)
  | s, n + 1 =>
      let rs := get_all_data s
      let rest := serve rs.2 n
      (rs.1 :: rest.1, rest.2)

/-! ## Theorems -/

/-- Claim C5: for every ReturnSeries of length M, `build_bcp_model` declares
`tau` with a discrete uniform prior supported exactly on `[0, M-1]`,
`mu_1, mu_2` with Normal(0, 0.1) priors, `sigma_1, sigma_2` with
half-Normal(0.1) priors, and a likelihood assigning observation `i` to
regime 1 exactly when `i < tau` and to regime 2 otherwise — a hard,
two-valued switch.  The builder is a pure function: no sampling occurs. -/
theorem c5_model_structure {α : Type} (data : List α) :
    (∀ t : ℤ, t ∈ (build_bcp_model data).tau.discreteSupport ↔
        0 ≤ t ∧ t ≤ (data.length : ℤ) - 1) ∧
    (build_bcp_model data).mu_1 = Dist.normal 0 (1 / 10) ∧
    (build_bcp_model data).mu_2 = Dist.normal 0 (1 / 10) ∧
    (build_bcp_model data).sigma_1 = Dist.halfNormal (1 / 10) ∧
    (build_bcp_model data).sigma_2 = Dist.halfNormal (1 / 10) ∧
    (build_bcp_model data).nObs = data.length ∧
    (∀ i t, ((build_bcp_model data).likelihoodMu i t = RegimeMu.mu_1 ↔ (i : ℤ) < t) ∧
        ((build_bcp_model data).likelihoodSigma i t = RegimeSigma.sigma_1 ↔ (i : ℤ) < t) ∧
        ((build_bcp_model data).likelihoodMu i t = RegimeMu.mu_2 ↔ ¬(i : ℤ) < t) ∧
        ((build_bcp_model data).likelihoodSigma i t = RegimeSigma.sigma_2 ↔ ¬(i : ℤ) < t)) := by
  refine ⟨fun t => ?_, rfl, rfl, rfl, rfl, rfl, fun i t => ?_⟩
  · simp [build_bcp_model, Dist.discreteSupport, Finset.mem_Icc]
  · by_cases h : (i : ℤ) < t <;> simp [build_bcp_model, h]

theorem ratMean_nonneg (xs : List ℚ) (h : ∀ x ∈ xs, 0 ≤ x) : 0 ≤ ratMean xs :=
  div_nonneg (List.sum_nonneg h) (by positivity)

theorem ratMean_le (xs : List ℚ) (B : ℚ) (hne : xs ≠ []) (h : ∀ x ∈ xs, x ≤ B) :
    ratMean xs ≤ B := by
  have hlen : 0 < (xs.length : ℚ) := by
    have := List.length_pos.mpr hne
    exact_mod_cast this
  rw [ratMean, div_le_iff₀ hlen]
  calc xs.sum ≤ xs.length • B := List.sum_le_card_nsmul xs B h
    _ = (xs.length : ℚ) * B := nsmul_eq_mul _ _
    _ = B * (xs.length : ℚ) := mul_comm _ _

theorem npRound_nonneg {q : ℚ} (h : 0 ≤ q) : 0 ≤ npRound q := by
  have h0 : 0 ≤ ⌊q⌋ := Int.floor_nonneg.mpr h
  unfold npRound
  split_ifs <;> omega

theorem npRound_le {q : ℚ} {B : ℤ} (h : q ≤ (B : ℚ)) : npRound q ≤ B := by
  have hfl : ⌊q⌋ ≤ B := by
    calc ⌊q⌋ ≤ ⌊(B : ℚ)⌋ := Int.floor_le_floor h
      _ = B := Int.floor_intCast B
  have key : (1 : ℚ) / 2 ≤ Int.fract q → ⌊q⌋ + 1 ≤ B := by
    intro hfr
    rcases lt_or_eq_of_le hfl with h' | h'
    · omega
    · exfalso
      have hq : q - ⌊q⌋ = Int.fract q := Int.self_sub_floor q
      have hBq : (B : ℚ) = (⌊q⌋ : ℚ) := by exact_mod_cast h'.symm
      have : Int.fract q ≤ 0 := by rw [← hq]; linarith
      linarith
  unfold npRound
  split_ifs with h1 h2 h3
  · exact hfl
  · exact key (le_of_lt h2)
  · exact hfl
  · exact key (le_of_not_lt h1)

theorem pyInt_eq_floor {q : ℚ} (h : 0 ≤ q) : pyInt q = ⌊q⌋ := if_pos h

/-- Claim C1 as stated is false: `get_analysis_results`
(`train_model.py` line 154) extracts `tau` with `int(np.mean(...))`, which
truncates the mean toward zero instead of rounding it to the nearest
integer.  On the draws `[1, 2, 2]` the mean is `5/3`; round-to-nearest
gives `2` (as `app.py`'s `int(np.round(...))` does), but the extracted
estimate is `1`. -/
theorem c1_counterexample :
    tau_point_estimate_train [1, 2, 2] = 1 ∧
    npRound (ratMean ([1, 2, 2].map (fun n : ℕ => (n : ℚ)))) = 2 ∧
    tau_point_estimate_app [1, 2, 2] = 2 := by
  have hmap : ([1, 2, 2] : List ℕ).map (fun n : ℕ => (n : ℚ)) = [1, 2, 2] := by norm_num
  have hmean : ratMean [(1 : ℚ), 2, 2] = 5 / 3 := by norm_num [ratMean]
  have hfloor : ⌊(5 / 3 : ℚ)⌋ = 1 := by
    rw [Int.floor_eq_iff]
    norm_num
  have hfract : Int.fract (5 / 3 : ℚ) = 2 / 3 := by
    rw [Int.fract, hfloor]
    norm_num
  have hround : npRound (5 / 3 : ℚ) = 2 := by
    rw [npRound, hfract, if_neg (by norm_num), if_pos (by norm_num), hfloor]
    norm_num
  refine ⟨?_, ?_, ?_⟩
  · rw [tau_point_estimate_train, hmap, hmean, pyInt, if_pos (by norm_num), hfloor]
  · rw [hmap, hmean, hround]
  · rw [tau_point_estimate_app, hmap, hmean, hround]

/-- Claim C1, amended: `run_full_analysis_and_serialize` extracts `tau` as
the round-to-nearest (half-to-even) of the mean of the draws, while
`get_analysis_results` truncates the mean toward zero; neither clamps, but
for every non-empty draw collection whose draws all lie in `[0, M-1]`,
both estimates lie in `[0, M-1]`, so `data.dates[estimate]` is a valid
index access. -/
theorem c1_tau_estimate (tauDraws : List ℕ) (M : ℕ) (hne : tauDraws ≠ [])
    (hub : ∀ d ∈ tauDraws, (d : ℤ) ≤ (M : ℤ) - 1) :
    (0 ≤ tau_point_estimate_app tauDraws ∧
      tau_point_estimate_app tauDraws ≤ (M : ℤ) - 1) ∧
    (0 ≤ tau_point_estimate_train tauDraws ∧
      tau_point_estimate_train tauDraws ≤ (M : ℤ) - 1) ∧
    (tau_point_estimate_app tauDraws).toNat < M ∧
    (tau_point_estimate_train tauDraws).toNat < M := by
  have hxs_ne : tauDraws.map (fun n : ℕ => (n : ℚ)) ≠ [] := by
    intro hcon
    exact hne (List.map_eq_nil_iff.mp hcon)
  have hq0 : 0 ≤ ratMean (tauDraws.map (fun n : ℕ => (n : ℚ))) := by
    refine ratMean_nonneg _ ?_
    intro x hx
    obtain ⟨n, _, rfl⟩ := List.mem_map.mp hx
    exact Nat.cast_nonneg n
  have hqB : ratMean (tauDraws.map (fun n : ℕ => (n : ℚ))) ≤ (((M : ℤ) - 1 : ℤ) : ℚ) := by
    refine ratMean_le _ _ hxs_ne ?_
    intro x hx
    obtain ⟨n, hn, rfl⟩ := List.mem_map.mp hx
    exact_mod_cast hub n hn
  have happ0 : 0 ≤ tau_point_estimate_app tauDraws := npRound_nonneg hq0
  have happB : tau_point_estimate_app tauDraws ≤ (M : ℤ) - 1 := npRound_le hqB
  have htr : tau_point_estimate_train tauDraws =
      ⌊ratMean (tauDraws.map (fun n : ℕ => (n : ℚ)))⌋ := pyInt_eq_floor hq0
  have htr0 : 0 ≤ tau_point_estimate_train tauDraws := by
    rw [htr]; exact Int.floor_nonneg.mpr hq0
  have htrB : tau_point_estimate_train tauDraws ≤ (M : ℤ) - 1 := by
    rw [htr]
    calc ⌊ratMean (tauDraws.map (fun n : ℕ => (n : ℚ)))⌋
        ≤ ⌊(((M : ℤ) - 1 : ℤ) : ℚ)⌋ := Int.floor_le_floor hqB
      _ = (M : ℤ) - 1 := Int.floor_intCast _
  exact ⟨⟨happ0, happB⟩, ⟨htr0, htrB⟩, by omega, by omega⟩

/-- Witness for `c1_tau_estimate` at the draws `[1, 2, 2]` and `M = 3`. -/
theorem c1_tau_estimate_witness :
    (0 ≤ tau_point_estimate_app [1, 2, 2] ∧
      tau_point_estimate_app [1, 2, 2] ≤ ((3 : ℕ) : ℤ) - 1) ∧
    (0 ≤ tau_point_estimate_train [1, 2, 2] ∧
      tau_point_estimate_train [1, 2, 2] ≤ ((3 : ℕ) : ℤ) - 1) ∧
    (tau_point_estimate_app [1, 2, 2]).toNat < 3 ∧
    (tau_point_estimate_train [1, 2, 2]).toNat < 3 :=
  c1_tau_estimate [1, 2, 2] 3 (by decide) (by decide)

theorem log_ratio_round_trip : ∀ (prices : List ℚ), (∀ p ∈ prices, 0 < p) →
    (prices.map (fun q : ℚ => (q : ℝ))).tail =
      List.zipWith (fun p r => p * Real.exp r) (prices.map (fun q : ℚ => (q : ℝ)))
        ((log_return_ratios prices).map (fun q : ℚ => Real.log (q : ℝ)))
  | [], _ => rfl
  | [_], _ => rfl
  | a :: b :: rest, hpos => by
    have ha : (0 : ℚ) < a := hpos a (List.mem_cons_self _ _)
    have hb : (0 : ℚ) < b := hpos b (List.mem_cons_of_mem _ (List.mem_cons_self _ _))
    have ih := log_ratio_round_trip (b :: rest)
      (fun p hp => hpos p (List.mem_cons_of_mem _ hp))
    have hdiv : (0 : ℝ) < ((b : ℝ) / (a : ℝ)) :=
      div_pos (by exact_mod_cast hb) (by exact_mod_cast ha)
    simp only [log_return_ratios, List.tail_cons, List.zipWith_cons_cons,
      List.map_cons] at ih ⊢
    refine List.cons_eq_cons.mpr ⟨?_, ih⟩
    rw [Rat.cast_div, Real.exp_log hdiv, mul_comm,
      div_mul_cancel₀ _ (ne_of_gt (by exact_mod_cast ha : (0 : ℝ) < (a : ℝ)))]

/-- Claim C4: for every PriceSeries of length `N ≥ 2` with all prices
positive, the derived log-return sequence has length `N - 1` with entry
`i` equal to `ln(price[i+1] / price[i])`, and reconstructing
`price[i+1] = price[i] * exp(log_return[i])` recovers the original prices
(exactly, in the real-number idealisation of floats): the tail of the
price list equals the element-wise reconstruction. -/
theorem c4_round_trip (prices : List ℚ) (hlen : 2 ≤ prices.length)
    (hpos : ∀ p ∈ prices, 0 < p) :
    (log_return_ratios prices).length = prices.length - 1 ∧
    (prices.map (fun q : ℚ => (q : ℝ))).tail =
      List.zipWith (fun p r => p * Real.exp r) (prices.map (fun q : ℚ => (q : ℝ)))
        ((log_return_ratios prices).map (fun q : ℚ => Real.log (q : ℝ))) := by
  constructor
  · have h1 : (log_return_ratios prices).length =
        min prices.length prices.tail.length := List.length_zipWith _ _ _
    have h2 : prices.tail.length = prices.length - 1 := List.length_tail prices
    omega
  · exact log_ratio_round_trip prices hpos

/-- Witness for `c4_round_trip` at the concrete price list `[1, 1]`. -/
theorem c4_round_trip_witness :
    (2 ≤ ([(1 : ℚ), 1]).length ∧ ∀ p ∈ [(1 : ℚ), 1], 0 < p) ∧
    ((log_return_ratios [(1 : ℚ), 1]).length = ([(1 : ℚ), 1]).length - 1 ∧
      (([(1 : ℚ), 1]).map (fun q : ℚ => (q : ℝ))).tail =
        List.zipWith (fun p r => p * Real.exp r)
          (([(1 : ℚ), 1]).map (fun q : ℚ => (q : ℝ)))
          ((log_return_ratios [(1 : ℚ), 1]).map (fun q : ℚ => Real.log (q : ℝ)))) :=
  ⟨⟨by norm_num, by norm_num⟩, c4_round_trip [1, 1] (by norm_num) (by norm_num)⟩

instance : IsTotal EventRec (fun a b => a.date ≤ b.date) :=
  ⟨fun a b => Int.le_total a.date b.date⟩

instance : IsTrans EventRec (fun a b => a.date ≤ b.date) :=
  ⟨fun _ _ _ h h' => le_trans h h'⟩

/-- Claim C3 as stated is false: `run_full_analysis_and_serialize`
(`app.py` lines 91-94) filters the catalog without sorting, so with the
catalog `[(date 5), (date -5)]` and change point 0 both events are within
the window but are returned in catalog order, which is not ascending by
date. -/
theorem c3_counterexample :
    relevant_events_app 0 [⟨5, "A", "a"⟩, ⟨-5, "B", "b"⟩] =
      [⟨5, "A", "a"⟩, ⟨-5, "B", "b"⟩] ∧
    ¬ List.Sorted (fun a b : EventRec => a.date ≤ b.date)
        (relevant_events_app 0 [⟨5, "A", "a"⟩, ⟨-5, "B", "b"⟩]) := by
  constructor
  · rfl
  · intro h
    rw [show relevant_events_app 0 [⟨5, "A", "a"⟩, ⟨-5, "B", "b"⟩] =
        [⟨5, "A", "a"⟩, ⟨-5, "B", "b"⟩] from rfl] at h
    have h5 := List.rel_of_sorted_cons h ⟨-5, "B", "b"⟩ (List.mem_singleton_self _)
    exact absurd (h5 : (5 : ℤ) ≤ -5) (by norm_num)

/-- Claim C3, amended: with the hard-coded 30-day window, both correlators
return exactly the events `e` with
`change_point_date - 30 ≤ e.date ≤ change_point_date + 30` (both bounds
inclusive), and an empty catalog or no matches yields an empty list.
`get_analysis_results` returns them sorted ascending by date, while
`run_full_analysis_and_serialize` returns them in catalog input order
(a sublist of the catalog), not sorted. -/
theorem c3_correlator (cp : Date) (events : List EventRec) :
    (∀ e, e ∈ relevant_events_app cp events ↔
        e ∈ events ∧ cp - 30 ≤ e.date ∧ e.date ≤ cp + 30) ∧
    List.Sublist (relevant_events_app cp events) events ∧
    (∀ e, e ∈ relevant_events_train cp events ↔
        e ∈ events ∧ cp - 30 ≤ e.date ∧ e.date ≤ cp + 30) ∧
    List.Sorted (fun a b : EventRec => a.date ≤ b.date)
      (relevant_events_train cp events) ∧
    relevant_events_app cp ([] : List EventRec) = [] ∧
    relevant_events_train cp ([] : List EventRec) = [] := by
  refine ⟨?_, List.filter_sublist _, ?_, ?_, rfl, rfl⟩
  · intro e
    simp [relevant_events_app, List.mem_filter, and_assoc]
  · intro e
    simp [relevant_events_train, List.mem_insertionSort, List.mem_filter, and_assoc]
  · exact List.sorted_insertionSort _ _

theorem zipLog_dates : ∀ prices : List (Date × ℚ),
    (List.zipWith (fun prev cur => (⟨cur.1, cur.2, npLog (fdiv cur.2 prev.2)⟩ : RawRow))
        prices prices.tail).map RawRow.date = (prices.map Prod.fst).tail
  | [] => rfl
  | [_] => rfl
  | p :: q :: rest => by
    have ih := zipLog_dates (q :: rest)
    simp only [List.tail_cons, List.zipWith_cons_cons, List.map_cons] at ih ⊢
    rw [ih]

theorem zipLog_not_nan : ∀ prices : List (Date × ℚ), (∀ p ∈ prices, 0 < p.2) →
    ∀ r ∈ List.zipWith (fun prev cur => (⟨cur.1, cur.2, npLog (fdiv cur.2 prev.2)⟩ : RawRow))
        prices prices.tail, r.logRet ≠ RVal.nan
  | [], _, r, hr => by simp at hr
  | [_], _, r, hr => by simp at hr
  | p :: q :: rest, hpos, r, hr => by
    simp only [List.tail_cons, List.zipWith_cons_cons, List.mem_cons] at hr
    rcases hr with rfl | hr
    · have hp : 0 < p.2 := hpos p (List.mem_cons_self _ _)
      have hq : 0 < q.2 := hpos q (List.mem_cons_of_mem _ (List.mem_cons_self _ _))
      have hratio : 0 < q.2 / p.2 := div_pos hq hp
      have h1 : fdiv q.2 p.2 = FDiv.fin (q.2 / p.2) := by
        rw [fdiv, if_neg hp.ne']
      show npLog (fdiv q.2 p.2) ≠ RVal.nan
      rw [h1, npLog, if_neg (not_lt.mpr hratio.le), if_neg hratio.ne']
      intro hcon
      exact RVal.noConfusion hcon
    · exact zipLog_not_nan (q :: rest)
        (fun x hx => hpos x (List.mem_cons_of_mem _ hx)) r hr

theorem dropna_addLogReturns (prices : List (Date × ℚ)) (hpos : ∀ p ∈ prices, 0 < p.2) :
    dropnaRows (addLogReturns prices) =
      List.zipWith (fun prev cur => (⟨cur.1, cur.2, npLog (fdiv cur.2 prev.2)⟩ : RawRow))
        prices prices.tail := by
  cases prices with
  | nil => rfl
  | cons p0 rest =>
    show dropnaRows
        ((⟨p0.1, p0.2, RVal.nan⟩ : RawRow) ::
          List.zipWith (fun prev cur => (⟨cur.1, cur.2, npLog (fdiv cur.2 prev.2)⟩ : RawRow))
            (p0 :: rest) (p0 :: rest).tail) = _
    rw [dropnaRows, List.filter_cons, if_neg (by simp)]
    exact List.filter_eq_self.mpr fun r hr => by
      simpa using zipLog_not_nan (p0 :: rest) hpos r hr

theorem mergeEvents_dates (events : List EventRec) : ∀ rows : List RawRow,
    (∀ r ∈ rows, (events.filter (fun e => decide (e.date = r.date))).length ≤ 1) →
    (mergeEvents rows events).map PRow.date = rows.map RawRow.date
  | [], _ => rfl
  | r :: rest, huniq => by
    have ih := mergeEvents_dates events rest
      (fun x hx => huniq x (List.mem_cons_of_mem _ hx))
    have hr := huniq r (List.mem_cons_self _ _)
    have hcons : mergeEvents (r :: rest) events =
        (match events.filter (fun e => decide (e.date = r.date)) with
          | [] => [(⟨r.date, r.price, r.logRet, .nan, .nan⟩ : PRow)]
          | ms => ms.map
              (fun e => (⟨r.date, r.price, r.logRet, .str e.name, .str e.desc⟩ : PRow)))
          ++ mergeEvents rest events := by
      rw [mergeEvents, List.flatMap_cons]
      rfl
    rw [hcons, List.map_append, ih, List.map_cons]
    cases hfe : events.filter (fun e => decide (e.date = r.date)) with
    | nil => simp
    | cons e tail =>
      cases tail with
      | nil => simp
      | cons e2 t2 =>
        rw [hfe] at hr
        simp at hr

theorem fillRows_dates (rows : List PRow) :
    (fillRows rows).map PRow.date = rows.map PRow.date := by
  simp only [fillRows, List.map_map]
  rfl

/-- Claim C2 as stated is false for catalogs in which multiple events
share one date: the left merge duplicates the price row once per matching
event record.  With the two-point price series on dates `[0, 1]` and two
events both dated `1`, the preprocessed output has two rows, both dated
`1`, instead of the `N - 1 = 1` row `dates[1:] = [1]`. -/
theorem c2_counterexample :
    (preprocess_data [(0, 1), (1, 2)] [⟨1, "A", "a"⟩, ⟨1, "B", "b"⟩]).map PRow.date =
      [1, 1] ∧
    (preprocess_data [(0, 1), (1, 2)] [⟨1, "A", "a"⟩, ⟨1, "B", "b"⟩]).length = 2 ∧
    (([((0 : Date), (1 : ℚ)), (1, 2)]).map Prod.fst).tail = [1] := by
  have h1 : fdiv 2 1 = FDiv.fin 2 := by
    rw [fdiv, if_neg (by decide : ¬(1 : ℚ) = 0)]
    norm_num
  have h2 : addLogReturns [(0, 1), (1, 2)] =
      [⟨0, 1, RVal.nan⟩, ⟨1, 2, RVal.logOf 2⟩] := by
    show [(⟨0, 1, RVal.nan⟩ : RawRow), ⟨1, 2, npLog (fdiv 2 1)⟩] = _
    rw [h1]
    norm_num [npLog]
  have hpre : preprocess_data [(0, 1), (1, 2)] [⟨1, "A", "a"⟩, ⟨1, "B", "b"⟩] =
      [⟨1, 2, RVal.logOf 2, .str "A", .str "a"⟩, ⟨1, 2, RVal.logOf 2, .str "B", .str "b"⟩] := by
    rw [preprocess_data, h2]
    decide
  rw [hpre]
  refine ⟨rfl, rfl, rfl⟩

/-- Claim C2, amended: for every PriceSeries with positive prices and
strictly increasing dates, and every event catalog in which each date of
`PriceSeries.dates[1:]` matches at most one event record, the preprocessed
output has exactly `N - 1` rows whose dates are exactly
`PriceSeries.dates[1:]`, in order.  (When several catalog records share a
date present in `dates[1:]`, the merge duplicates that row instead.) -/
theorem c2_preprocess_dates (prices : List (Date × ℚ)) (events : List EventRec)
    (hpos : ∀ p ∈ prices, 0 < p.2)
    (hchain : List.Chain' (· < ·) (prices.map Prod.fst))
    (huniq : ∀ d ∈ (prices.map Prod.fst).tail,
        (events.filter (fun e => decide (e.date = d))).length ≤ 1) :
    (preprocess_data prices events).map PRow.date = (prices.map Prod.fst).tail ∧
    (preprocess_data prices events).length = prices.length - 1 := by
  have hdrop := dropna_addLogReturns prices hpos
  have hdates : (dropnaRows (addLogReturns prices)).map RawRow.date =
      (prices.map Prod.fst).tail := by
    rw [hdrop]
    exact zipLog_dates prices
  have hmerge : (mergeEvents (dropnaRows (addLogReturns prices)) events).map PRow.date =
      (prices.map Prod.fst).tail := by
    rw [mergeEvents_dates events _ ?_, hdates]
    intro r hrr
    refine huniq r.date ?_
    rw [← hdates]
    exact List.mem_map_of_mem RawRow.date hrr
  have hmid : (fillRows (mergeEvents (dropnaRows (addLogReturns prices)) events)).map
      PRow.date = (prices.map Prod.fst).tail := by
    rw [fillRows_dates]
    exact hmerge
  have hpair : List.Pairwise (· < ·) ((prices.map Prod.fst).tail) :=
    List.chain'_iff_pairwise.mp hchain.tail
  have hsorted : List.Sorted (fun a b : PRow => a.date ≤ b.date)
      (fillRows (mergeEvents (dropnaRows (addLogReturns prices)) events)) := by
    have h1 : List.Pairwise (· < ·)
        ((fillRows (mergeEvents (dropnaRows (addLogReturns prices)) events)).map
          PRow.date) := by
      rw [hmid]
      exact hpair
    have h2 := List.pairwise_map.mp h1
    exact h2.imp (fun h => le_of_lt h)
  have hfinal : preprocess_data prices events =
      fillRows (mergeEvents (dropnaRows (addLogReturns prices)) events) := by
    rw [preprocess_data, sortByDate]
    exact hsorted.insertionSort_eq
  constructor
  · rw [hfinal]
    exact hmid
  · rw [hfinal]
    have := congrArg List.length hmid
    simpa using this

/-- Witness for `c2_preprocess_dates` at the price series `[(0,1), (1,2)]`
and the one-event catalog `[(1, A, a)]`. -/
theorem c2_preprocess_dates_witness :
    (preprocess_data [(0, 1), (1, 2)] [⟨1, "A", "a"⟩]).map PRow.date =
      (([((0 : Date), (1 : ℚ)), (1, 2)]).map Prod.fst).tail ∧
    (preprocess_data [(0, 1), (1, 2)] [⟨1, "A", "a"⟩]).length =
      ([((0 : Date), (1 : ℚ)), (1, 2)]).length - 1 :=
  c2_preprocess_dates [(0, 1), (1, 2)] [⟨1, "A", "a"⟩] (by decide)
    (by norm_num [List.chain'_cons]) (by decide)

theorem mem_preprocess (prices : List (Date × ℚ)) (events : List EventRec) (r : PRow)
    (hr : r ∈ preprocess_data prices events) :
    ∃ rr ∈ dropnaRows (addLogReturns prices),
      r.date = rr.date ∧ r.logRet = rr.logRet ∧
      ((events.filter (fun e => decide (e.date = rr.date)) = [] ∧
          r.eventName = SVal.str "No Event" ∧ r.eventDesc = SVal.str "No Event") ∨
        ∃ e ∈ events.filter (fun e => decide (e.date = rr.date)),
          r.eventName = SVal.str e.name ∧ r.eventDesc = SVal.str e.desc) := by
  rw [preprocess_data, sortByDate, List.mem_insertionSort, fillRows, List.mem_map] at hr
  obtain ⟨r0, hr0, rfl⟩ := hr
  rw [mergeEvents, List.mem_flatMap] at hr0
  obtain ⟨rr, hrr, hmem⟩ := hr0
  refine ⟨rr, hrr, ?_⟩
  cases hfe : events.filter (fun e => decide (e.date = rr.date)) with
  | nil =>
    rw [hfe] at hmem
    simp only [List.mem_singleton] at hmem
    subst hmem
    exact ⟨rfl, rfl, Or.inl ⟨rfl, rfl, rfl⟩⟩
  | cons e tail =>
    rw [hfe] at hmem
    simp only [List.mem_map] at hmem
    obtain ⟨e', he', rfl⟩ := hmem
    exact ⟨rfl, rfl, Or.inr ⟨e', he', rfl, rfl⟩⟩

/-- Claim C10: in every preprocessed output row, `Event_Name` and
`Description` are string cells, never NaN; a row whose date matches no
event in the catalog carries the literal string `'No Event'` in both
fields; and the `.dropna()` applied before serializing `preprocessed_data`
(`app.py` line 101) therefore drops nothing, so every serialized row has
all five fields populated. -/
theorem c10_no_event_fill (prices : List (Date × ℚ)) (events : List EventRec) :
    (∀ r ∈ preprocess_data prices events,
        (∃ s, r.eventName = SVal.str s) ∧ ∃ s, r.eventDesc = SVal.str s) ∧
    (∀ r ∈ preprocess_data prices events,
        (∀ e ∈ events, e.date ≠ r.date) →
          r.eventName = SVal.str "No Event" ∧ r.eventDesc = SVal.str "No Event") ∧
    serialize_dropna (preprocess_data prices events) = preprocess_data prices events := by
  refine ⟨fun r hr => ?_, fun r hr hnone => ?_, List.filter_eq_self.mpr fun r hr => ?_⟩
  · obtain ⟨rr, hrr, hdate, hlog, hcase⟩ := mem_preprocess prices events r hr
    rcases hcase with ⟨_, hn, hd⟩ | ⟨e, he, hn, hd⟩
    · exact ⟨⟨"No Event", hn⟩, "No Event", hd⟩
    · exact ⟨⟨e.name, hn⟩, e.desc, hd⟩
  · obtain ⟨rr, hrr, hdate, hlog, hcase⟩ := mem_preprocess prices events r hr
    rcases hcase with ⟨_, hn, hd⟩ | ⟨e, he, hn, hd⟩
    · exact ⟨hn, hd⟩
    · exfalso
      have he' := List.mem_filter.mp he
      have : e.date = rr.date := of_decide_eq_true he'.2
      exact hnone e he'.1 (this.trans hdate.symm)
  · obtain ⟨rr, hrr, hdate, hlog, hcase⟩ := mem_preprocess prices events r hr
    have hlogne : r.logRet ≠ RVal.nan := by
      rw [hlog]
      exact of_decide_eq_true (List.mem_filter.mp hrr).2
    have hname : r.eventName ≠ SVal.nan := by
      rcases hcase with ⟨_, hn, _⟩ | ⟨e, _, hn, _⟩ <;> rw [hn] <;>
        exact fun hcon => SVal.noConfusion hcon
    have hdesc : r.eventDesc ≠ SVal.nan := by
      rcases hcase with ⟨_, _, hd⟩ | ⟨e, _, _, hd⟩ <;> rw [hd] <;>
        exact fun hcon => SVal.noConfusion hcon
    exact decide_eq_true ⟨hlogne, hname, hdesc⟩

/-- Claim C6 as stated is false: no validation of price values exists in
the pipeline.  A series containing negative prices is accepted: on prices
`[1, -1, -2]` the pipeline succeeds, the two rows with NaN log returns
(negative ratios) are silently dropped, and the run returns the one
remaining row — the date-1 row simply disappears instead of an error
being raised. -/
theorem c6_counterexample :
    load_and_prepare ⟨some [(0, 1), (1, -1), (2, -2)], some []⟩ "prices.csv" "events.csv" =
      Except.ok [⟨2, -2, RVal.logOf 2, SVal.str "No Event", SVal.str "No Event"⟩] ∧
    (1 : Date) ∉ (preprocess_data [(0, 1), (1, -1), (2, -2)] []).map PRow.date := by
  have hd1 : fdiv (-1) 1 = FDiv.fin (-1) := by
    rw [fdiv, if_neg (by decide : ¬(1 : ℚ) = 0)]
    norm_num
  have hd2 : fdiv (-2) (-1) = FDiv.fin 2 := by
    rw [fdiv, if_neg (by decide : ¬(-1 : ℚ) = 0)]
    norm_num
  have hl1 : npLog (FDiv.fin (-1)) = RVal.nan := by norm_num [npLog]
  have hl2 : npLog (FDiv.fin 2) = RVal.logOf 2 := by norm_num [npLog]
  have h2 : addLogReturns [(0, 1), (1, -1), (2, -2)] =
      [⟨0, 1, RVal.nan⟩, ⟨1, -1, RVal.nan⟩, ⟨2, -2, RVal.logOf 2⟩] := by
    show [(⟨0, 1, RVal.nan⟩ : RawRow), ⟨1, -1, npLog (fdiv (-1) 1)⟩,
      ⟨2, -2, npLog (fdiv (-2) (-1))⟩] = _
    rw [hd1, hd2, hl1, hl2]
  have hsort : List.insertionSort (fun a b : Date × ℚ => a.1 ≤ b.1)
      [(0, 1), (1, -1), (2, -2)] = [(0, 1), (1, -1), (2, -2)] := by decide
  have hpre : preprocess_data [(0, 1), (1, -1), (2, -2)] [] =
      [⟨2, -2, RVal.logOf 2, SVal.str "No Event", SVal.str "No Event"⟩] := by
    rw [preprocess_data, h2]
    decide
  constructor
  · calc load_and_prepare ⟨some [(0, 1), (1, -1), (2, -2)], some []⟩ "prices.csv" "events.csv"
        = Except.ok (preprocess_data (List.insertionSort (fun a b : Date × ℚ => a.1 ≤ b.1)
            [(0, 1), (1, -1), (2, -2)]) []) := rfl
      _ = _ := by rw [hsort, hpre]
  · rw [hpre]
    decide

/-- Claim C6, amended: `load_data` fails (with `FileNotFoundError` naming
the attempted path) exactly when a source file is missing; date and price
fields are never validated.  In particular non-positive prices are
accepted: a pair with a negative ratio yields a NaN log return whose row
is silently dropped (prices `[1, -1]` give an empty, error-free series),
and a zero price yields a `-inf` log return that stays in the series. -/
theorem c6_load_errors (fs : FileSystem) (pp ep : String) :
    (fs.pricesFile = none →
        load_and_prepare fs pp ep =
          Except.error (.fileNotFound ("Price data file not found at: " ++ pp))) ∧
    (∀ prices, fs.pricesFile = some prices → fs.eventsFile = none →
        load_and_prepare fs pp ep =
          Except.error (.fileNotFound ("Events data file not found at: " ++ ep))) ∧
    load_and_prepare ⟨some [(0, 1), (1, -1)], some []⟩ pp ep = Except.ok [] ∧
    load_and_prepare ⟨some [(0, 1), (1, 0)], some []⟩ pp ep =
      Except.ok [⟨1, 0, RVal.neginf, SVal.str "No Event", SVal.str "No Event"⟩] := by
  refine ⟨fun h => ?_, fun prices h1 h2 => ?_, ?_, ?_⟩
  · simp [load_and_prepare, load_data, h, Except.map]
  · simp [load_and_prepare, load_data, h1, h2, Except.map]
  · have hd1 : fdiv (-1) 1 = FDiv.fin (-1) := by
      rw [fdiv, if_neg (by decide : ¬(1 : ℚ) = 0)]
      norm_num
    have h2 : addLogReturns [(0, 1), (1, -1)] =
        [⟨0, 1, RVal.nan⟩, ⟨1, -1, RVal.nan⟩] := by
      show [(⟨0, 1, RVal.nan⟩ : RawRow), ⟨1, -1, npLog (fdiv (-1) 1)⟩] = _
      rw [hd1]
      norm_num [npLog]
    have hpre : preprocess_data [(0, 1), (1, -1)] [] = [] := by
      rw [preprocess_data, h2]
      decide
    calc load_and_prepare ⟨some [(0, 1), (1, -1)], some []⟩ pp ep
        = Except.ok (preprocess_data (List.insertionSort (fun a b : Date × ℚ => a.1 ≤ b.1)
            [(0, 1), (1, -1)]) []) := rfl
      _ = _ := by rw [show List.insertionSort (fun a b : Date × ℚ => a.1 ≤ b.1)
            [(0, 1), (1, -1)] = [(0, 1), (1, -1)] from by decide, hpre]
  · have hd1 : fdiv 0 1 = FDiv.fin 0 := by
      rw [fdiv, if_neg (by decide : ¬(1 : ℚ) = 0)]
      norm_num
    have h2 : addLogReturns [(0, 1), (1, 0)] =
        [⟨0, 1, RVal.nan⟩, ⟨1, 0, RVal.neginf⟩] := by
      show [(⟨0, 1, RVal.nan⟩ : RawRow), ⟨1, 0, npLog (fdiv 0 1)⟩] = _
      rw [hd1]
      norm_num [npLog]
    have hpre : preprocess_data [(0, 1), (1, 0)] [] =
        [⟨1, 0, RVal.neginf, SVal.str "No Event", SVal.str "No Event"⟩] := by
      rw [preprocess_data, h2]
      decide
    calc load_and_prepare ⟨some [(0, 1), (1, 0)], some []⟩ pp ep
        = Except.ok (preprocess_data (List.insertionSort (fun a b : Date × ℚ => a.1 ≤ b.1)
            [(0, 1), (1, 0)]) []) := rfl
      _ = _ := by rw [show List.insertionSort (fun a b : Date × ℚ => a.1 ≤ b.1)
            [(0, 1), (1, 0)] = [(0, 1), (1, 0)] from by decide, hpre]

/-- Witness for `c6_load_errors` at a file system with a missing price
file. -/
theorem c6_load_errors_witness :
    load_and_prepare ⟨none, some []⟩ "P" "E" =
      Except.error (.fileNotFound ("Price data file not found at: " ++ "P")) :=
  (c6_load_errors ⟨none, some []⟩ "P" "E").1 rfl

/-- Claim C7 as stated is false: `preprocess_data` mutates both of its
argument DataFrames in place.  On a concrete input, after the call the
events frame has its `Approximate_Date` column renamed to `Date`, and the
prices frame is no longer equal to its original value (it gained a
`Log_Returns` column, lost its first row, and its index became `Date`). -/
theorem c7_counterexample :
    (preprocess_data_effects ⟨false, [(0, 1), (1, 2)], none⟩
        ⟨"Approximate_Date", []⟩).2.2 ≠ ⟨"Approximate_Date", []⟩ ∧
    (preprocess_data_effects ⟨false, [(0, 1), (1, 2)], none⟩
        ⟨"Approximate_Date", []⟩).2.1 ≠ ⟨false, [(0, 1), (1, 2)], none⟩ := by
  constructor
  · intro h
    exact absurd (congrArg EventsFrame.dateColName h) (by decide)
  · intro h
    exact absurd (congrArg PricesFrame.indexIsDate h) (by decide)

/-- Claim C7, amended: the in-place effects of `preprocess_data` on its
caller's objects are exactly these: the events frame keeps its records but
has its date column renamed from `Approximate_Date` to `Date`; the prices
frame becomes indexed by `Date`, holds the rows that survive `dropna`
(the first row, and any row with a NaN log return, removed) and a new
`Log_Returns` column.  No other state is touched, and the returned frame
is the same value `preprocess_data` computes from the input values. -/
theorem c7_mutation_effects (pf : PricesFrame) (ef : EventsFrame) :
    (preprocess_data_effects pf ef).1 = preprocess_data pf.rows ef.recs ∧
    (preprocess_data_effects pf ef).2.2 = ⟨"Date", ef.recs⟩ ∧
    (preprocess_data_effects pf ef).2.1 =
      ⟨true, (dropnaRows (addLogReturns pf.rows)).map (fun r => (r.date, r.price)),
        some ((dropnaRows (addLogReturns pf.rows)).map RawRow.logRet)⟩ :=
  ⟨rfl, rfl, rfl⟩

/-- Claim C8: whenever any pipeline component fails — whatever the failure
message `m` of the run is — the published state is the error descriptor
with `m` preserved inside its message; every error state is served by the
query surface as the `{"error": msg}` payload with HTTP status 500 (not
200-framing) and never as the `ok` payload, so no `model_results` or other
partial numeric fields are exposed.  In particular: a missing price source
publishes an error whose message contains the attempted price path, a
missing events source one containing the attempted events path, and an
empty posterior (`np.mean([])` is NaN, `int(NaN)` raises) also ends in the
published error state. -/
theorem c8_error_isolation (fs : FileSystem) (sampler : BcpModel → Posterior) :
    (∀ m n, run_full_analysis_counting fs sampler = (AnalysisData.err m, n) →
        (startup fs sampler).analysis_data =
          AnalysisData.err ("Failed to initialize analysis on startup: " ++ m)) ∧
    (∀ s msg, s.analysis_data = AnalysisData.err msg →
        (get_all_data s).1 = (AnalysisData.err msg, 500) ∧
        ∀ r, (get_all_data s).1.1 ≠ AnalysisData.ok r) ∧
    (fs.pricesFile = none →
        ∃ pre post, (startup fs sampler).analysis_data =
          AnalysisData.err (pre ++ PRICES_FILE_PATH ++ post)) ∧
    (∀ prices, fs.pricesFile = some prices → fs.eventsFile = none →
        ∃ pre post, (startup fs sampler).analysis_data =
          AnalysisData.err (pre ++ EVENTS_FILE_PATH ++ post)) ∧
    (∀ prices events, fs.pricesFile = some prices → fs.eventsFile = some events →
        (∀ m, sampler m = []) →
        (startup fs sampler).analysis_data =
          AnalysisData.err ("Failed to initialize analysis on startup: " ++
            "Failed to run analysis: cannot convert float NaN to integer")) := by
  refine ⟨fun m n h => ?_, fun s msg h => ⟨?_, ?_⟩, fun h => ?_,
    fun prices h1 h2 => ?_, fun prices events hp he hsamp => ?_⟩
  · rw [startup, h]
  · rw [get_all_data, h]
  · intro r
    rw [get_all_data, h]
    intro hcon
    exact AnalysisData.noConfusion hcon
  · have hrun : run_full_analysis_counting fs sampler =
        (.err ("Failed to run analysis: " ++
          ("Price data file not found at: " ++ PRICES_FILE_PATH)), 0) := by
      simp [run_full_analysis_counting, load_data, h]
    refine ⟨"Failed to initialize analysis on startup: " ++ "Failed to run analysis: " ++
      "Price data file not found at: ", "", ?_⟩
    rw [startup, hrun]
    exact congrArg AnalysisData.err (by decide)
  · have hrun : run_full_analysis_counting fs sampler =
        (.err ("Failed to run analysis: " ++
          ("Events data file not found at: " ++ EVENTS_FILE_PATH)), 0) := by
      simp [run_full_analysis_counting, load_data, h1, h2]
    refine ⟨"Failed to initialize analysis on startup: " ++ "Failed to run analysis: " ++
      "Events data file not found at: ", "", ?_⟩
    rw [startup, hrun]
    exact congrArg AnalysisData.err (by decide)
  · have hrun : run_full_analysis_counting fs sampler =
        (.err "Failed to run analysis: cannot convert float NaN to integer", 1) := by
      simp [run_full_analysis_counting, load_data, hp, he, hsamp]
    rw [startup, hrun]

/-- Witness for `c8_error_isolation` at an empty file system: the missing
price file is published as an error naming the attempted path, served
with status 500 and never as an `ok` payload. -/
theorem c8_error_isolation_witness :
    (∃ pre post, (startup ⟨none, none⟩ (fun _ => [])).analysis_data =
        AnalysisData.err (pre ++ PRICES_FILE_PATH ++ post)) ∧
    (get_all_data (startup ⟨none, none⟩ (fun _ => []))).1 =
      (AnalysisData.err ("Failed to initialize analysis on startup: " ++
        ("Failed to run analysis: " ++
          ("Price data file not found at: " ++ PRICES_FILE_PATH))), 500) ∧
    ∀ r, (get_all_data (startup ⟨none, none⟩ (fun _ => []))).1.1 ≠ AnalysisData.ok r := by
  have h := c8_error_isolation ⟨none, none⟩ (fun _ => [])
  have ha := h.1 ("Failed to run analysis: " ++
      ("Price data file not found at: " ++ PRICES_FILE_PATH)) 0 rfl
  exact ⟨h.2.2.1 rfl, (h.2.1 _ _ ha).1, (h.2.1 _ _ ha).2⟩

theorem get_all_data_state (s : ServerState) : (get_all_data s).2 = s := by
  cases h : s.analysis_data <;> simp [get_all_data, h]

theorem serve_id : ∀ (n : ℕ) (s : ServerState),
    (serve s n).2 = s ∧ (serve s n).1 = List.replicate n (get_all_data s).1
  | 0, _ => ⟨rfl, rfl⟩
  | n + 1, s => by
    have hs := get_all_data_state s
    have ih := serve_id n s
    constructor
    · show (serve (get_all_data s).2 n).2 = s
      rw [hs]
      exact ih.1
    · show (get_all_data s).1 :: (serve (get_all_data s).2 n).1 =
        List.replicate (n + 1) (get_all_data s).1
      rw [hs, ih.2, List.replicate_succ]

theorem run_counting_le_one (fs : FileSystem) (sampler : BcpModel → Posterior) :
    (run_full_analysis_counting fs sampler).2 ≤ 1 := by
  unfold run_full_analysis_counting
  cases hld : load_data fs PRICES_FILE_PATH EVENTS_FILE_PATH with
  | error e =>
    cases e
    simp
  | ok pe =>
    obtain ⟨prices_raw, events_raw⟩ := pe
    dsimp only
    split
    · simp
    · split <;> simp

theorem startup_calls (fs : FileSystem) (sampler : BcpModel → Posterior) :
    (startup fs sampler).samplerCalls = (run_full_analysis_counting fs sampler).2 := by
  rw [startup]
  cases h : run_full_analysis_counting fs sampler with
  | mk d k => cases d <;> rfl

/-- Claim C9: the analysis pipeline (with its single inference call) runs
exactly once, at startup; serving any number `n` of requests leaves the
server state — in particular the inference-invocation count — unchanged,
and every response is the same published payload. -/
theorem c9_compute_once (fs : FileSystem) (sampler : BcpModel → Posterior) (n : ℕ) :
    (startup fs sampler).samplerCalls ≤ 1 ∧
    (serve (startup fs sampler) n).2 = startup fs sampler ∧
    (serve (startup fs sampler) n).1 =
      List.replicate n (get_all_data (startup fs sampler)).1 := by
  refine ⟨?_, (serve_id n _).1, (serve_id n _).2⟩
  rw [startup_calls]
  exact run_counting_le_one fs sampler

end BrentOil
